import Mathlib

set_option linter.all false

/-! Verification of the socket.io WebRTC signaling server in
`src/unnamed/part_000`: the in-memory room registry, the membership
lifecycle (`join:room`, `leave:room`, `disconnect`), media-state
tracking (`media:state`, `screen:share`), and the relay/broadcast
events (`signal`, `chat:message`).

The file holds two server variants separated by a document marker.
The first variant (lines 1-195) carries the screen-share handlers and
an `isScreenSharing` flag; the second (lines 196-345) lacks them.
Their `join:room`, `signal`, `media:state`, `leave:room` and
`chat:message` handlers are otherwise identical.  The one behavioural
difference relevant below is in `disconnect`: the first variant
(lines 179-194) deletes both `rooms[roomId]` and `mediaStates[roomId]`
when a room empties, the second (lines 328-344) deletes only
`rooms[roomId]`.  Both disconnect handlers are embedded
(`onDisconnect`, `onDisconnectV2`). -/

/-! ## JavaScript-object primitives

`rooms` and `mediaStates` are plain JS objects used as string-keyed
maps.  They are embedded as insertion-ordered association lists with
JS semantics: assignment updates an existing key in place and appends
a fresh key at the end, `Object.keys` lists keys in that order. -/

/-- Property read `o[k]`: value at the first matching key. -/
def recGet {α : Type} : List (String × α) → String → Option α
  | [], _ => none
  | (k2, v) :: rest, k => if k2 = k then some v else recGet rest k

/-- Property assignment `o[k] = v`: update in place when the key is
present, otherwise append at the end (JS objects preserve insertion
order). -/
def recSet {α : Type} : List (String × α) → String → α → List (String × α)
  | [], k, v => [(k, v)]
  | (k2, v2) :: rest, k, v =>
      if k2 = k then (k2, v) :: rest else (k2, v2) :: recSet rest k v

/-- JS `delete o[k]`. -/
def recDel {α : Type} (r : List (String × α)) (k : String) : List (String × α) :=
  r.filter (fun p => p.1 ≠ k)

/-- JS `Object.keys o`. -/
def recKeys {α : Type} (r : List (String × α)) : List String :=
  r.map (fun p => p.1)

/-- Truthiness of `o[k]` for object-valued entries. -/
def recHas {α : Type} (r : List (String × α)) (k : String) : Bool :=
  (recGet r k).isSome

/-! ## Data model -/

/-- Entry of `rooms[roomId]` (part_000 line 20):
`{ socketId, userId, displayName, photoURL? }`. -/
structure UserInfo where
  socketId : String
  userId : String
  displayName : String
  photoURL : Option String
deriving Repr, DecidableEq

/-- Entry of `mediaStates[roomId]` (line 21):
`{ audioEnabled, videoEnabled, isScreenSharing? }`.  The screen flag
is an optional field in the TypeScript type, hence `Option Bool`. -/
structure MediaState where
  audioEnabled : Bool
  videoEnabled : Bool
  isScreenSharing : Option Bool
deriving Repr, DecidableEq

/-- The server's whole mutable state.  `rooms` and `mediaStates` are
the two global registries of lines 20-21.  `groups` and `connected`
embed the socket.io transport the handlers drive: `groups` records,
per broadcast-group name, which sockets called `socket.join` for it
(and have not left), and `connected` the live socket ids.  On
`disconnect` the transport removes the socket from every group. -/
structure ServerState where
  rooms : List (String × List (String × UserInfo))
  mediaStates : List (String × List (String × MediaState))
  groups : List (String × List String)
  connected : List String
deriving Repr, DecidableEq

/-- Fresh server: both registries start as `{}` (lines 20-21), no
connections. -/
def initState : ServerState := ⟨[], [], [], []⟩

/-! ## Outbound events and delivery targets -/

/-- Addressing shape of an emission, per the three delivery shapes the
handlers use: `socket.emit` (the handling socket only), a
`socket.to(roomId).emit` room broadcast excluding the sender, a
`io.to(connectionId).emit` unicast to one connection (`signal`), and a
`io.to(roomId).emit` room broadcast including the sender
(`chat:message`). -/
inductive Target where
  | direct (sid : String)
  | roomExcept (roomId sid : String)
  | unicast (sid : String)
  | room (roomId : String)
deriving Repr, DecidableEq

/-- Server-to-client events, with the payloads built by the handlers. -/
inductive OutEvent where
  | roomFull
  | roomJoined (roomId : String) (existingUsers : List UserInfo)
  | mediaStatesSnapshot (states : List (String × MediaState))
  | userJoined (u : UserInfo)
  | signalFwd (fromId : String) (payload : Option String)
      (displayName userId photoURL : Option String)
  | mediaStateBcast (socketId : String) (audioEnabled videoEnabled : Bool)
  | screenShareBcast (socketId : String) (sharing : Bool)
      (displayName photoURL : Option String)
  | peerScreenShareStart (socketId : String) (displayName photoURL : Option String)
  | peerScreenShareStop (socketId : String)
  | screenSignalFwd (fromId : String) (payload : Option String)
  | userLeft (socketId : String)
  | chatMessage (userId message timestamp : String)
deriving Repr, DecidableEq

/-- One emission: a target plus the event. -/
abbrev Emit := Target × OutEvent

/-- Which connection ids an emission reaches.  `direct` reaches the
handling socket; the two room shapes reach the broadcast group (every
socket that joined it), the `roomExcept` shape minus the sender; a
unicast reaches the destination connection when it is live and nobody
otherwise (dropped, fire-and-forget). -/
def deliver (st : ServerState) (t : Target) : List String :=
  match t with
  | Target.direct sid => [sid]
  | Target.roomExcept r sid => ((recGet st.groups r).getD []).filter (fun x => x ≠ sid)
  | Target.unicast sid => if sid ∈ st.connected then [sid] else []
  | Target.room r => (recGet st.groups r).getD []

/-! ## Transport group bookkeeping -/

/-- Transport `socket.join(g)` by socket `sid`: no-op when already a member. -/
def groupJoin (gs : List (String × List String)) (g sid : String) :
    List (String × List String) :=
  let cur := (recGet gs g).getD []
  if sid ∈ cur then gs else recSet gs g (cur ++ [sid])

/-- Transport `socket.leave(g)` by socket `sid`. -/
def groupLeave (gs : List (String × List String)) (g sid : String) :
    List (String × List String) :=
  match recGet gs g with
  | some cur => recSet gs g (cur.filter (fun x => x ≠ sid))
  | none => gs

/-- Transport cleanup on disconnect: the socket leaves every group. -/
def groupLeaveAll (gs : List (String × List String)) (sid : String) :
    List (String × List String) :=
  gs.map (fun p => (p.1, p.2.filter (fun x => x ≠ sid)))

/-! ## Event handlers (first variant, lines 23-194) -/

/-- A transport connection is accepted (`io.on("connection", ...)`). -/
def onConnect (st : ServerState) (sid : String) : ServerState :=
  { st with connected := if sid ∈ st.connected then st.connected else st.connected ++ [sid] }

/-- The `join:room` handler (lines 26-55).  Counts the room's current
members; at 10 or more it emits `room:full` to the requester and
returns without touching anything.  Otherwise it joins the broadcast
group, creates both registry entries when absent, inserts the member
into both maps (default media state: audio on, video on, screen off),
answers the requester with `room:joined` (the other members) and
`media:states` (the room's media map), and broadcasts `user:joined`
to the other members. -/
def onJoin (st : ServerState) (sid roomId userId displayName : String)
    (photoURL : Option String) : ServerState × List Emit :=
  let currentCount := match recGet st.rooms roomId with
    | some m => m.length
    | none => 0
  if currentCount ≥ 10 then
    (st, [(Target.direct sid, OutEvent.roomFull)])
  else
    let groups1 := groupJoin st.groups roomId sid
    let rooms1 := match recGet st.rooms roomId with
      | some _ => st.rooms
      | none => recSet st.rooms roomId []
    let media1 := match recGet st.mediaStates roomId with
      | some _ => st.mediaStates
      | none => recSet st.mediaStates roomId []
    let info : UserInfo := ⟨sid, userId, displayName, photoURL⟩
    let rooms2 := recSet rooms1 roomId (recSet ((recGet rooms1 roomId).getD []) sid info)
    let media2 := recSet media1 roomId
      (recSet ((recGet media1 roomId).getD []) sid ⟨true, true, some false⟩)
    let existingUsers := (((recGet rooms2 roomId).getD []).filter (fun p => p.1 ≠ sid)).map
      (fun p => (⟨p.1, p.2.userId, p.2.displayName, p.2.photoURL⟩ : UserInfo))
    ({ st with rooms := rooms2, mediaStates := media2, groups := groups1 },
     [(Target.direct sid, OutEvent.roomJoined roomId existingUsers),
      (Target.direct sid, OutEvent.mediaStatesSnapshot ((recGet media2 roomId).getD [])),
      (Target.roomExcept roomId sid, OutEvent.userJoined ⟨sid, userId, displayName, photoURL⟩)])

/-- Payload of the `signal` event.  `fromId` renders the source field
`from` (a Lean keyword); `payload` renders the opaque `signal` blob,
modelled as a string with `none` for a missing value and `""` playing
the role of an otherwise-falsy value. -/
structure SignalData where
  toId : String
  fromId : String
  payload : Option String
  roomId : String
deriving Repr, DecidableEq

/-- The `signal` handler (lines 57-69).  `if (!signal || !to) return;`
drops a falsy payload or destination; otherwise the sender profile is
read from `rooms[roomId]?.[from]` and the envelope is forwarded to
the single connection `to`. -/
def onSignal (st : ServerState) (d : SignalData) : ServerState × List Emit :=
  if d.payload = none ∨ d.payload = some "" ∨ d.toId = "" then (st, [])
  else
    let senderInfo := recGet ((recGet st.rooms d.roomId).getD []) d.fromId
    (st, [(Target.unicast d.toId,
           OutEvent.signalFwd d.fromId d.payload
             (senderInfo.map (fun i => i.displayName))
             (senderInfo.map (fun i => i.userId))
             (senderInfo.bind (fun i => i.photoURL)))])

/-- The `media:state` handler (lines 71-88).  Creates the room's media map
when absent, reads the sender's current entry or the default
`{audioEnabled: true, videoEnabled: true, isScreenSharing: false}`,
overwrites the fields present in the event (`??` keeps the prior value
for an absent field, and `current.isScreenSharing ?? false` for the
screen flag), stores the merge keyed by the sender's socket id, and
broadcasts the two media flags to the rest of the room.  No membership
or room-existence check is made. -/
def onMediaState (st : ServerState) (sid roomId : String)
    (audioEnabled videoEnabled : Option Bool) : ServerState × List Emit :=
  let ms0 := match recGet st.mediaStates roomId with
    | some _ => st.mediaStates
    | none => recSet st.mediaStates roomId []
  let mm := (recGet ms0 roomId).getD []
  let current := (recGet mm sid).getD ⟨true, true, some false⟩
  let updated : MediaState :=
    ⟨audioEnabled.getD current.audioEnabled,
     videoEnabled.getD current.videoEnabled,
     some (current.isScreenSharing.getD false)⟩
  ({ st with mediaStates := recSet ms0 roomId (recSet mm sid updated) },
   [(Target.roomExcept roomId sid,
     OutEvent.mediaStateBcast sid updated.audioEnabled updated.videoEnabled)])

/-- The merge object literal of lines 77-81: the current entry (or the
default seeded at line 76) overwritten by the fields present in the
event; an absent field keeps the prior value (`??`), and the screen
flag is carried over (`current.isScreenSharing ?? false`). -/
def mergeMedia (cur : MediaState) (a v : Option Bool) : MediaState :=
  ⟨a.getD cur.audioEnabled, v.getD cur.videoEnabled,
   some (cur.isScreenSharing.getD false)⟩

/-- The default media state `{audioEnabled: true, videoEnabled: true,
isScreenSharing: false}` written at join time (line 43) and seeded on
a missing `media:state` entry (line 76). -/
def defMedia : MediaState := ⟨true, true, some false⟩

/-- The current media entry a `media:state` event merges into: the
stored one, or the default when none is stored. -/
def curMedia (st : ServerState) (sid roomId : String) : MediaState :=
  (recGet ((recGet st.mediaStates roomId).getD []) sid).getD defMedia

/-- The `screen:share` handler (lines 91-110): sets the screen flag when
the sender's media entry exists and broadcasts the toggle. -/
def onScreenShare (st : ServerState) (sid roomId : String) (sharing : Bool) :
    ServerState × List Emit :=
  let ms1 := match recGet st.mediaStates roomId with
    | some mm => match recGet mm sid with
      | some cur => recSet st.mediaStates roomId
          (recSet mm sid { cur with isScreenSharing := some sharing })
      | none => st.mediaStates
    | none => st.mediaStates
  let senderInfo := recGet ((recGet st.rooms roomId).getD []) sid
  ({ st with mediaStates := ms1 },
   [(Target.roomExcept roomId sid,
     OutEvent.screenShareBcast sid sharing
       (senderInfo.map (fun i => i.displayName))
       (senderInfo.bind (fun i => i.photoURL)))])

/-- Legacy `screen:share-start` handler (lines 113-127). -/
def onScreenShareStart (st : ServerState) (sid roomId : String) :
    ServerState × List Emit :=
  let ms1 := match recGet st.mediaStates roomId with
    | some mm => match recGet mm sid with
      | some cur => recSet st.mediaStates roomId
          (recSet mm sid { cur with isScreenSharing := some true })
      | none => st.mediaStates
    | none => st.mediaStates
  let senderInfo := recGet ((recGet st.rooms roomId).getD []) sid
  ({ st with mediaStates := ms1 },
   [(Target.roomExcept roomId sid,
     OutEvent.peerScreenShareStart sid
       (senderInfo.map (fun i => i.displayName))
       (senderInfo.bind (fun i => i.photoURL)))])

/-- Legacy `screen:share-stop` handler (lines 129-139). -/
def onScreenShareStop (st : ServerState) (sid roomId : String) :
    ServerState × List Emit :=
  let ms1 := match recGet st.mediaStates roomId with
    | some mm => match recGet mm sid with
      | some cur => recSet st.mediaStates roomId
          (recSet mm sid { cur with isScreenSharing := some false })
      | none => st.mediaStates
    | none => st.mediaStates
  ({ st with mediaStates := ms1 },
   [(Target.roomExcept roomId sid, OutEvent.peerScreenShareStop sid)])

/-- The `screen:signal` handler (lines 141-148): unchecked unicast relay. -/
def onScreenSignal (st : ServerState) (toId fromId : String)
    (payload : Option String) : ServerState × List Emit :=
  (st, [(Target.unicast toId, OutEvent.screenSignalFwd fromId payload)])

/-- The `leave:room` handler (lines 150-164).  Guarded by
`rooms[roomId]?.[socket.id]`: a missing room or membership makes the
whole handler a no-op.  Otherwise the member is deleted from both
maps, `user:left` is broadcast to the rest of the room, the socket
leaves the broadcast group, and when the room became empty both
registry entries are deleted. -/
def onLeave (st : ServerState) (sid roomId : String) : ServerState × List Emit :=
  match recGet st.rooms roomId with
  | none => (st, [])
  | some m =>
    match recGet m sid with
    | none => (st, [])
    | some _ =>
      let m1 := recDel m sid
      let rooms1 := recSet st.rooms roomId m1
      let media1 := match recGet st.mediaStates roomId with
        | some mm => recSet st.mediaStates roomId (recDel mm sid)
        | none => st.mediaStates
      let groups1 := groupLeave st.groups roomId sid
      if m1.length = 0 then
        ({ st with rooms := recDel rooms1 roomId,
                   mediaStates := recDel media1 roomId, groups := groups1 },
         [(Target.roomExcept roomId sid, OutEvent.userLeft sid)])
      else
        ({ st with rooms := rooms1, mediaStates := media1, groups := groups1 },
         [(Target.roomExcept roomId sid, OutEvent.userLeft sid)])

/-- The `chat:message` handler (lines 166-177): trim the text, stamp the
server receipt time (`new Date().toISOString()`, passed in as the
environment parameter `now`), and broadcast to the whole room
including the sender via `io.to(roomId)`.  The inbound payload has no
timestamp field. -/
def onChat (st : ServerState) (sid roomId userId message now : String) :
    ServerState × List Emit :=
  (st, [(Target.room roomId, OutEvent.chatMessage userId message.trim now)])

/-- Body of the `disconnect` loop (first variant, lines 180-191) for
one room id: when the socket is a member, delete it from both maps,
broadcast `user:left`, and delete both registry entries when the room
became empty. -/
def dstep (sid : String) (acc : ServerState × List Emit) (roomId : String) :
    ServerState × List Emit :=
  let st := acc.1
  match recGet st.rooms roomId with
  | none => acc
  | some m =>
    match recGet m sid with
    | none => acc
    | some _ =>
      let m1 := recDel m sid
      let rooms1 := recSet st.rooms roomId m1
      let media1 := match recGet st.mediaStates roomId with
        | some mm => recSet st.mediaStates roomId (recDel mm sid)
        | none => st.mediaStates
      let out1 := acc.2 ++ [(Target.roomExcept roomId sid, OutEvent.userLeft sid)]
      if m1.length = 0 then
        ({ st with rooms := recDel rooms1 roomId, mediaStates := recDel media1 roomId }, out1)
      else
        ({ st with rooms := rooms1, mediaStates := media1 }, out1)

/-- The `disconnect` handler, first variant (lines 179-194):
`for (const roomId in rooms)` runs the cleanup for every room (the
loop only ever deletes the key it is visiting, so iterating the
initial key list is equivalent), after which the transport removes
the socket from every broadcast group and from the live set. -/
def onDisconnect (st : ServerState) (sid : String) : ServerState × List Emit :=
  let stOut := (recKeys st.rooms).foldl (dstep sid) (st, [])
  ({ stOut.1 with groups := groupLeaveAll stOut.1.groups sid,
                  connected := stOut.1.connected.filter (fun x => x ≠ sid) }, stOut.2)

/-- Body of the `disconnect` loop of the second variant (lines
330-341) for one room id.  It differs from `dstep` in the emptied-room
branch alone: `delete rooms[roomId]` is performed (line 338) but there
is no `delete mediaStates[roomId]`, so the room's media-state entry
(just emptied of the leaver) stays in the registry.  The variant's
media-state record lacks the screen flag, which plays no part in any
key-set behaviour, so the handler is stated over the same state. -/
def dstepV2 (sid : String) (acc : ServerState × List Emit) (roomId : String) :
    ServerState × List Emit :=
  let st := acc.1
  match recGet st.rooms roomId with
  | none => acc
  | some m =>
    match recGet m sid with
    | none => acc
    | some _ =>
      let m1 := recDel m sid
      let rooms1 := recSet st.rooms roomId m1
      let media1 := match recGet st.mediaStates roomId with
        | some mm => recSet st.mediaStates roomId (recDel mm sid)
        | none => st.mediaStates
      let out1 := acc.2 ++ [(Target.roomExcept roomId sid, OutEvent.userLeft sid)]
      if m1.length = 0 then
        ({ st with rooms := recDel rooms1 roomId, mediaStates := media1 }, out1)
      else
        ({ st with rooms := rooms1, mediaStates := media1 }, out1)

/-- The `disconnect` handler, second variant (lines 328-344). -/
def onDisconnectV2 (st : ServerState) (sid : String) : ServerState × List Emit :=
  let stOut := (recKeys st.rooms).foldl (dstepV2 sid) (st, [])
  ({ stOut.1 with groups := groupLeaveAll stOut.1.groups sid,
                  connected := stOut.1.connected.filter (fun x => x ≠ sid) }, stOut.2)

/-! ## The event-driven state machine -/

/-- Inbound events, one constructor per handler registration, each
carrying the id of the socket the event arrived on plus the client
payload. -/
inductive InEvent where
  | connect (sid : String)
  | joinRoom (sid roomId userId displayName : String) (photoURL : Option String)
  | signalEv (sid : String) (d : SignalData)
  | mediaStateEv (sid roomId : String) (audioEnabled videoEnabled : Option Bool)
  | screenShareEv (sid roomId : String) (sharing : Bool)
  | screenShareStartEv (sid roomId : String)
  | screenShareStopEv (sid roomId : String)
  | screenSignalEv (sid toId fromId : String) (payload : Option String)
  | leaveRoom (sid roomId : String)
  | chatMessageEv (sid roomId userId message : String)
  | disconnectEv (sid : String)
deriving Repr, DecidableEq

/-- Dispatch one inbound event; `now` is the server clock reading at
receipt, used only by `chat:message`. -/
def step (st : ServerState) (now : String) (e : InEvent) : ServerState × List Emit :=
  match e with
  | InEvent.connect sid => (onConnect st sid, [])
  | InEvent.joinRoom sid roomId userId displayName photoURL =>
      onJoin st sid roomId userId displayName photoURL
  | InEvent.signalEv _ d => onSignal st d
  | InEvent.mediaStateEv sid roomId a v => onMediaState st sid roomId a v
  | InEvent.screenShareEv sid roomId sharing => onScreenShare st sid roomId sharing
  | InEvent.screenShareStartEv sid roomId => onScreenShareStart st sid roomId
  | InEvent.screenShareStopEv sid roomId => onScreenShareStop st sid roomId
  | InEvent.screenSignalEv _ toId fromId payload => onScreenSignal st toId fromId payload
  | InEvent.leaveRoom sid roomId => onLeave st sid roomId
  | InEvent.chatMessageEv sid roomId userId message => onChat st sid roomId userId message now
  | InEvent.disconnectEv sid => onDisconnect st sid

/-- The state after a fresh server has processed a sequence of
time-stamped inbound events. -/
def run (evs : List (String × InEvent)) : ServerState :=
  evs.foldl (fun st p => (step st p.1 p.2).1) initState

/-! ## Concrete scenarios -/

/-- One client connects and joins room `r1`. -/
def oneJoinEvs : List (String × InEvent) :=
  [("t0", InEvent.connect "c1"),
   ("t0", InEvent.joinRoom "c1" "r1" "u1" "Ana" none)]

/-- Two clients connect and join room `r1`. -/
def twoJoinEvs : List (String × InEvent) :=
  oneJoinEvs ++
  [("t1", InEvent.connect "c2"),
   ("t1", InEvent.joinRoom "c2" "r1" "u2" "Bea" none)]

/-- Three clients connect and join room `r1`. -/
def threeJoinEvs : List (String × InEvent) :=
  twoJoinEvs ++
  [("t2", InEvent.connect "c3"),
   ("t2", InEvent.joinRoom "c3" "r1" "u3" "Caro" none)]

/-- Ten distinct clients join room `r`. -/
def tenJoinEvs : List (String × InEvent) :=
  [("t", InEvent.joinRoom "s1" "r" "u1" "n1" none),
   ("t", InEvent.joinRoom "s2" "r" "u2" "n2" none),
   ("t", InEvent.joinRoom "s3" "r" "u3" "n3" none),
   ("t", InEvent.joinRoom "s4" "r" "u4" "n4" none),
   ("t", InEvent.joinRoom "s5" "r" "u5" "n5" none),
   ("t", InEvent.joinRoom "s6" "r" "u6" "n6" none),
   ("t", InEvent.joinRoom "s7" "r" "u7" "n7" none),
   ("t", InEvent.joinRoom "s8" "r" "u8" "n8" none),
   ("t", InEvent.joinRoom "s9" "r" "u9" "n9" none),
   ("t", InEvent.joinRoom "s10" "r" "u10" "n10" none)]

/-- A state whose room registry is empty while client `c1` already has
a stored media state in room `r1` (audio on, video off, screen on). -/
def mediaWitSt : ServerState :=
  ⟨[], [("r1", [("c1", ⟨true, false, some true⟩)])], [], []⟩

/-! ## Characterizations of the disconnect loop and invariants -/

/-- What the disconnect loop leaves of one room entry: untouched when
the socket is not a member, deleted when the socket was the last
member, otherwise the entry minus the socket. -/
def droomAfter (sid : String) (o : Option (List (String × UserInfo))) :
    Option (List (String × UserInfo)) :=
  match o with
  | none => none
  | some m =>
    match recGet m sid with
    | none => some m
    | some _ => if (recDel m sid).length = 0 then none else some (recDel m sid)

/-- What the disconnect loop (first variant) leaves of one media-state
entry, given the matching room entry. -/
def dmediaAfter (sid : String) (ro : Option (List (String × UserInfo)))
    (mo : Option (List (String × MediaState))) :
    Option (List (String × MediaState)) :=
  match ro with
  | none => mo
  | some m =>
    match recGet m sid with
    | none => mo
    | some _ =>
      if (recDel m sid).length = 0 then none
      else mo.map (fun mm => recDel mm sid)

/-- Whether the disconnect loop's guard `rooms[roomId][socket.id]`
fires for room `k`. -/
def dhits (st : ServerState) (sid k : String) : Bool :=
  match recGet st.rooms k with
  | some m => (recGet m sid).isSome
  | none => false

/-- The broadcast group of every existing room mirrors the room's key
set (in order): `socket.join` at line 33 runs exactly when the member
is inserted at line 42, and both removals stay in lockstep. -/
def groupsMatch (st : ServerState) : Prop :=
  ∀ r : String, (recGet st.groups r).getD [] = recKeys ((recGet st.rooms r).getD [])

/-- Structural invariant of every reachable server state: rooms hold
at most 10 members, broadcast groups mirror room membership, member
key lists and the room key list are duplicate-free. -/
def ServerInv (st : ServerState) : Prop :=
  (∀ r m, recGet st.rooms r = some m → m.length ≤ 10) ∧
  groupsMatch st ∧
  (∀ r m, recGet st.rooms r = some m → (recKeys m).Nodup) ∧
  (recKeys st.rooms).Nodup

/-! ## Laws of the object primitives -/

theorem recGet_recSet_self {α : Type} (r : List (String × α)) (k : String) (v : α) :
    recGet (recSet r k v) k = some v := by
  induction r with
  | nil => simp [recSet, recGet]
  | cons p rest ih =>
    obtain ⟨k2, v2⟩ := p
    by_cases h : k2 = k
    · simp [recSet, recGet, h]
    · simp [recSet, recGet, h, ih]

theorem recGet_recSet_ne {α : Type} (r : List (String × α)) (k k2 : String) (v : α)
    (h : k2 ≠ k) : recGet (recSet r k v) k2 = recGet r k2 := by
  have hne : k ≠ k2 := Ne.symm h
  induction r with
  | nil => simp [recSet, recGet, hne]
  | cons p rest ih =>
    obtain ⟨k3, v3⟩ := p
    by_cases h3 : k3 = k
    · subst h3
      simp [recSet, recGet, hne]
    · by_cases h4 : k3 = k2
      · subst h4
        simp [recSet, recGet, h3]
      · simp [recSet, recGet, h3, h4, ih]

theorem recGet_recDel_self {α : Type} (r : List (String × α)) (k : String) :
    recGet (recDel r k) k = none := by
  induction r with
  | nil => simp [recDel, recGet]
  | cons p rest ih =>
    obtain ⟨k2, v2⟩ := p
    by_cases h : k2 = k
    · simpa [recDel, recGet, h] using ih
    · simpa [recDel, recGet, h] using ih

theorem recGet_recDel_ne {α : Type} (r : List (String × α)) (k k2 : String)
    (h : k2 ≠ k) : recGet (recDel r k) k2 = recGet r k2 := by
  have hne : k ≠ k2 := Ne.symm h
  induction r with
  | nil => simp [recDel, recGet]
  | cons p rest ih =>
    obtain ⟨k3, v3⟩ := p
    by_cases h3 : k3 = k
    · subst h3
      simpa [recDel, recGet, hne] using ih
    · by_cases h4 : k3 = k2
      · subst h4
        simp [recDel, recGet, h3]
      · simpa [recDel, recGet, h3, h4] using ih

theorem recKeys_recDel {α : Type} (r : List (String × α)) (k : String) :
    recKeys (recDel r k) = (recKeys r).filter (fun x => x ≠ k) := by
  induction r with
  | nil => simp [recDel, recKeys]
  | cons p rest ih =>
    obtain ⟨k2, v2⟩ := p
    by_cases h : k2 = k
    · simpa [recDel, recKeys, h] using ih
    · simpa [recDel, recKeys, h] using ih

theorem recGet_eq_none_iff {α : Type} (r : List (String × α)) (k : String) :
    recGet r k = none ↔ k ∉ recKeys r := by
  induction r with
  | nil => simp [recGet, recKeys]
  | cons p rest ih =>
    obtain ⟨k2, v2⟩ := p
    by_cases h : k2 = k
    · subst h
      simp [recGet, recKeys]
    · simp [recGet, recKeys, h, ih, Ne.symm h]

theorem mem_recKeys_of_recGet {α : Type} {r : List (String × α)} {k : String} {v : α}
    (h : recGet r k = some v) : k ∈ recKeys r := by
  by_contra hk
  rw [← recGet_eq_none_iff] at hk
  rw [h] at hk
  exact Option.noConfusion hk

theorem recKeys_recSet {α : Type} (r : List (String × α)) (k : String) (v : α) :
    recKeys (recSet r k v) =
      if k ∈ recKeys r then recKeys r else recKeys r ++ [k] := by
  induction r with
  | nil => simp [recSet, recKeys]
  | cons p rest ih =>
    obtain ⟨k2, v2⟩ := p
    by_cases h : k2 = k
    · subst h
      simp [recSet, recKeys]
    · by_cases hm : k ∈ recKeys rest
      · simp only [recKeys] at ih hm ⊢
        simp [recSet, h, hm, Ne.symm h, ih]
      · simp only [recKeys] at ih hm ⊢
        simp [recSet, h, hm, Ne.symm h, ih]

theorem length_recSet {α : Type} (r : List (String × α)) (k : String) (v : α) :
    (recSet r k v).length = if k ∈ recKeys r then r.length else r.length + 1 := by
  induction r with
  | nil => simp [recSet, recKeys]
  | cons p rest ih =>
    obtain ⟨k2, v2⟩ := p
    by_cases h : k2 = k
    · subst h
      simp [recSet, recKeys]
    · by_cases hm : k ∈ recKeys rest
      · simp only [recKeys] at ih hm ⊢
        simp [recSet, h, hm, Ne.symm h, ih]
      · simp only [recKeys] at ih hm ⊢
        simp [recSet, h, hm, Ne.symm h, ih]

theorem length_recDel_le {α : Type} (r : List (String × α)) (k : String) :
    (recDel r k).length ≤ r.length :=
  List.length_filter_le _ _

theorem nodup_recKeys_recSet {α : Type} {r : List (String × α)} (k : String) (v : α)
    (h : (recKeys r).Nodup) : (recKeys (recSet r k v)).Nodup := by
  rw [recKeys_recSet]
  by_cases hm : k ∈ recKeys r
  · simpa [hm] using h
  · simp [hm, List.nodup_append, h]

theorem nodup_recKeys_recDel {α : Type} {r : List (String × α)} (k : String)
    (h : (recKeys r).Nodup) : (recKeys (recDel r k)).Nodup := by
  rw [recKeys_recDel]
  exact h.filter _

theorem filter_ne_of_not_mem {l : List String} {k : String} (h : k ∉ l) :
    l.filter (fun x => x ≠ k) = l := by
  apply List.filter_eq_self.mpr
  intro a ha
  simp only [ne_eq, decide_not, Bool.not_eq_true', decide_eq_false_iff_not]
  intro heq
  exact h (heq ▸ ha)

theorem recDel_of_recGet_none {α : Type} {r : List (String × α)} {k : String}
    (h : recGet r k = none) : recDel r k = r := by
  induction r with
  | nil => simp [recDel]
  | cons p rest ih =>
    obtain ⟨k2, v2⟩ := p
    rw [recGet] at h
    by_cases h2 : k2 = k
    · simp [h2] at h
    · rw [if_neg h2] at h
      have h3 := ih h
      simp [recDel, h2] at h3 ⊢
      exact h3

theorem recGet_groupLeaveAll (gs : List (String × List String)) (sid g : String) :
    recGet (groupLeaveAll gs sid) g =
      (recGet gs g).map (fun l => l.filter (fun x => x ≠ sid)) := by
  induction gs with
  | nil => simp [groupLeaveAll, recGet]
  | cons p rest ih =>
    obtain ⟨g2, l2⟩ := p
    by_cases h : g2 = g
    · simp [groupLeaveAll, recGet, h]
    · simpa [groupLeaveAll, recGet, h] using ih

theorem recSet_recSet_same {α : Type} (r : List (String × α)) (k : String) (v w : α) :
    recSet (recSet r k v) k w = recSet r k w := by
  induction r with
  | nil => simp [recSet]
  | cons p rest ih =>
    obtain ⟨k2, v2⟩ := p
    by_cases h : k2 = k
    · simp [recSet, h]
    · simp [recSet, h, ih]

/-! ## Handler characterizations -/

/-- `join:room` at capacity: the requester alone is told `room:full`
and the state is returned untouched. -/
theorem onJoin_full {st : ServerState} {roomId : String} {m : List (String × UserInfo)}
    (sid u d : String) (p : Option String)
    (hm : recGet st.rooms roomId = some m) (hlen : 10 ≤ m.length) :
    onJoin st sid roomId u d p = (st, [(Target.direct sid, OutEvent.roomFull)]) := by
  unfold onJoin
  rw [hm]
  simp [hlen]

/-- `join:room` below capacity: both registries gain the member (the
room entries being created when absent), the socket joins the
broadcast group, and the three emissions are produced. -/
theorem onJoin_not_full (st : ServerState) (sid roomId u d : String) (p : Option String)
    (h : ((recGet st.rooms roomId).getD []).length < 10) :
    onJoin st sid roomId u d p =
      ({ st with
          rooms := recSet st.rooms roomId
            (recSet ((recGet st.rooms roomId).getD []) sid ⟨sid, u, d, p⟩),
          mediaStates := recSet st.mediaStates roomId
            (recSet ((recGet st.mediaStates roomId).getD []) sid ⟨true, true, some false⟩),
          groups := groupJoin st.groups roomId sid },
       [(Target.direct sid, OutEvent.roomJoined roomId
           (((recSet ((recGet st.rooms roomId).getD []) sid ⟨sid, u, d, p⟩).filter
               (fun q => q.1 ≠ sid)).map
             (fun q => (⟨q.1, q.2.userId, q.2.displayName, q.2.photoURL⟩ : UserInfo)))),
        (Target.direct sid, OutEvent.mediaStatesSnapshot
           (recSet ((recGet st.mediaStates roomId).getD []) sid ⟨true, true, some false⟩)),
        (Target.roomExcept roomId sid, OutEvent.userJoined ⟨sid, u, d, p⟩)]) := by
  unfold onJoin
  cases hr : recGet st.rooms roomId with
  | none =>
    cases hms : recGet st.mediaStates roomId with
    | none =>
      rw [hr] at h
      simp only [Option.getD_none, List.length_nil] at h
      simp [recGet_recSet_self, recSet_recSet_same]
    | some mm =>
      rw [hr] at h
      simp only [Option.getD_none, List.length_nil] at h
      simp [hms, recGet_recSet_self, recSet_recSet_same]
  | some m =>
    rw [hr] at h
    simp only [Option.getD_some] at h
    cases hms : recGet st.mediaStates roomId with
    | none =>
      simp [hr, hms, Nat.not_le.mpr h, recGet_recSet_self, recSet_recSet_same]
    | some mm =>
      simp [hr, hms, Nat.not_le.mpr h, recGet_recSet_self, recSet_recSet_same]

theorem recDel_recSet_same {α : Type} (r : List (String × α)) (k : String) (v : α) :
    recDel (recSet r k v) k = recDel r k := by
  induction r with
  | nil => simp [recSet, recDel]
  | cons p rest ih =>
    obtain ⟨k2, v2⟩ := p
    simp only [recDel, ne_eq, decide_not] at ih ⊢
    by_cases h : k2 = k
    · simp [recSet, h]
    · simp [recSet, h, ih]

theorem recGet_groupJoin_self (gs : List (String × List String)) (g sid : String) :
    recGet (groupJoin gs g sid) g =
      if sid ∈ (recGet gs g).getD [] then recGet gs g
      else some ((recGet gs g).getD [] ++ [sid]) := by
  unfold groupJoin
  by_cases h : sid ∈ (recGet gs g).getD []
  · simp [h]
  · simp [h, recGet_recSet_self]

theorem recGet_groupJoin_ne (gs : List (String × List String)) (g g2 sid : String)
    (h : g2 ≠ g) : recGet (groupJoin gs g sid) g2 = recGet gs g2 := by
  unfold groupJoin
  by_cases hm : sid ∈ (recGet gs g).getD []
  · simp [hm]
  · simp [hm, recGet_recSet_ne _ _ _ _ h]

theorem recGet_groupLeave_self (gs : List (String × List String)) (g sid : String) :
    recGet (groupLeave gs g sid) g =
      (recGet gs g).map (fun l => l.filter (fun x => x ≠ sid)) := by
  unfold groupLeave
  cases hg : recGet gs g with
  | none => simp [hg]
  | some cur => simp [recGet_recSet_self]

theorem recGet_groupLeave_ne (gs : List (String × List String)) (g g2 sid : String)
    (h : g2 ≠ g) : recGet (groupLeave gs g sid) g2 = recGet gs g2 := by
  unfold groupLeave
  cases hg : recGet gs g with
  | none => rfl
  | some cur => simp [recGet_recSet_ne _ _ _ _ h]

/-- A `leave:room` when the guard `rooms[roomId]?.[socket.id]` is falsy:
the whole handler is a no-op with no emissions. -/
theorem onLeave_not_member {st : ServerState} {sid roomId : String}
    (h : (recGet st.rooms roomId).bind (fun m => recGet m sid) = none) :
    onLeave st sid roomId = (st, []) := by
  unfold onLeave
  cases hr : recGet st.rooms roomId with
  | none => rfl
  | some m =>
    rw [hr] at h
    simp only [Option.some_bind] at h
    simp [h]

/-- A `leave:room` for an actual member: the member leaves both maps and
the broadcast group, `user:left` is emitted to the rest of the room,
and when the room emptied both registry entries are dropped. -/
theorem onLeave_member {st : ServerState} {sid roomId : String}
    {m : List (String × UserInfo)} {info : UserInfo}
    (hm : recGet st.rooms roomId = some m) (hs : recGet m sid = some info) :
    onLeave st sid roomId =
      ({ st with
          rooms := if (recDel m sid).length = 0 then recDel st.rooms roomId
            else recSet st.rooms roomId (recDel m sid),
          mediaStates := if (recDel m sid).length = 0 then recDel st.mediaStates roomId
            else match recGet st.mediaStates roomId with
              | some mm => recSet st.mediaStates roomId (recDel mm sid)
              | none => st.mediaStates,
          groups := groupLeave st.groups roomId sid },
       [(Target.roomExcept roomId sid, OutEvent.userLeft sid)]) := by
  unfold onLeave
  rw [hm]
  by_cases hlen : (recDel m sid).length = 0
  · cases hms : recGet st.mediaStates roomId with
    | none => simp [hs, hlen, hms, recDel_recSet_same]
    | some mm => simp [hs, hlen, hms, recDel_recSet_same]
  · cases hms : recGet st.mediaStates roomId with
    | none => simp [hs, hlen, hms]
    | some mm => simp [hs, hlen, hms]

/-- A `media:state` event: the merged entry is stored under the sender's id in
the room's media map (created when absent) and the two flags are
broadcast to the rest of the room; nothing else changes. -/
theorem onMediaState_char (st : ServerState) (sid roomId : String)
    (a v : Option Bool) :
    onMediaState st sid roomId a v =
      ({ st with
          mediaStates := recSet st.mediaStates roomId
            (recSet ((recGet st.mediaStates roomId).getD []) sid
              (mergeMedia (curMedia st sid roomId) a v)) },
       [(Target.roomExcept roomId sid, OutEvent.mediaStateBcast sid
          (mergeMedia (curMedia st sid roomId) a v).audioEnabled
          (mergeMedia (curMedia st sid roomId) a v).videoEnabled)]) := by
  unfold onMediaState mergeMedia curMedia defMedia
  cases hms : recGet st.mediaStates roomId with
  | none => simp [recGet_recSet_self, recSet_recSet_same]
  | some mm => simp [hms]

/-! ## The disconnect loop, step by step -/

theorem dstep_other (sid k r : String) (h : r ≠ k) (acc : ServerState × List Emit) :
    recGet (dstep sid acc k).1.rooms r = recGet acc.1.rooms r ∧
    recGet (dstep sid acc k).1.mediaStates r = recGet acc.1.mediaStates r := by
  unfold dstep
  cases hr : recGet acc.1.rooms k with
  | none => simp [hr]
  | some m =>
    cases hs : recGet m sid with
    | none => simp [hr, hs]
    | some info =>
      by_cases hlen : recDel m sid = []
      · cases hms : recGet acc.1.mediaStates k with
        | none =>
          simp [hr, hs, hlen, hms, recGet_recDel_ne _ _ _ h, recGet_recSet_ne _ _ _ _ h]
        | some mm =>
          simp [hr, hs, hlen, hms, recGet_recDel_ne _ _ _ h, recGet_recSet_ne _ _ _ _ h]
      · cases hms : recGet acc.1.mediaStates k with
        | none => simp [hr, hs, hlen, hms, recGet_recSet_ne _ _ _ _ h]
        | some mm => simp [hr, hs, hlen, hms, recGet_recSet_ne _ _ _ _ h]

theorem dstep_self (sid k : String) (acc : ServerState × List Emit) :
    recGet (dstep sid acc k).1.rooms k = droomAfter sid (recGet acc.1.rooms k) ∧
    recGet (dstep sid acc k).1.mediaStates k =
      dmediaAfter sid (recGet acc.1.rooms k) (recGet acc.1.mediaStates k) := by
  unfold dstep droomAfter dmediaAfter
  cases hr : recGet acc.1.rooms k with
  | none => simp [hr]
  | some m =>
    cases hs : recGet m sid with
    | none => simp [hr, hs]
    | some info =>
      by_cases hlen : recDel m sid = []
      · cases hms : recGet acc.1.mediaStates k with
        | none => simp [hr, hs, hlen, hms, recGet_recDel_self, recDel_recSet_same]
        | some mm => simp [hr, hs, hlen, hms, recGet_recDel_self, recDel_recSet_same]
      · cases hms : recGet acc.1.mediaStates k with
        | none => simp [hr, hs, hlen, hms, recGet_recSet_self]
        | some mm => simp [hr, hs, hlen, hms, recGet_recSet_self]

theorem dstep_groups (sid k : String) (acc : ServerState × List Emit) :
    (dstep sid acc k).1.groups = acc.1.groups ∧
    (dstep sid acc k).1.connected = acc.1.connected := by
  unfold dstep
  cases hr : recGet acc.1.rooms k with
  | none => simp [hr]
  | some m =>
    cases hs : recGet m sid with
    | none => simp [hr, hs]
    | some info =>
      by_cases hlen : recDel m sid = []
      · simp [hr, hs, hlen]
      · simp [hr, hs, hlen]

theorem dstep_out (sid k : String) (acc : ServerState × List Emit) :
    (dstep sid acc k).2 =
      if dhits acc.1 sid k then
        acc.2 ++ [(Target.roomExcept k sid, OutEvent.userLeft sid)]
      else acc.2 := by
  unfold dstep dhits
  cases hr : recGet acc.1.rooms k with
  | none => simp [hr]
  | some m =>
    cases hs : recGet m sid with
    | none => simp [hr, hs]
    | some info =>
      by_cases hlen : recDel m sid = []
      · simp [hr, hs, hlen]
      · simp [hr, hs, hlen]

theorem dstep_nodup (sid k : String) (acc : ServerState × List Emit)
    (h : (recKeys acc.1.rooms).Nodup) : (recKeys (dstep sid acc k).1.rooms).Nodup := by
  unfold dstep
  cases hr : recGet acc.1.rooms k with
  | none => simpa [hr] using h
  | some m =>
    cases hs : recGet m sid with
    | none => simpa [hr, hs] using h
    | some info =>
      by_cases hlen : recDel m sid = []
      · simp [hr, hs, hlen]
        exact nodup_recKeys_recDel _ (nodup_recKeys_recSet _ _ h)
      · simp [hr, hs, hlen]
        exact nodup_recKeys_recSet _ _ h

theorem dfold_other (sid : String) (ks : List String) :
    ∀ (acc : ServerState × List Emit) (r : String), r ∉ ks →
      recGet (ks.foldl (dstep sid) acc).1.rooms r = recGet acc.1.rooms r ∧
      recGet (ks.foldl (dstep sid) acc).1.mediaStates r = recGet acc.1.mediaStates r := by
  induction ks with
  | nil => intro acc r _; exact ⟨rfl, rfl⟩
  | cons k ks ih =>
    intro acc r h
    have h1 : r ≠ k := fun hh => h (hh ▸ List.mem_cons_self k ks)
    have h2 : r ∉ ks := fun hh => h (List.mem_cons_of_mem k hh)
    simp only [List.foldl_cons]
    have hstep := dstep_other sid k r h1 acc
    obtain ⟨ha, hb⟩ := ih (dstep sid acc k) r h2
    exact ⟨ha.trans hstep.1, hb.trans hstep.2⟩

theorem dfold_groups (sid : String) (ks : List String) :
    ∀ (acc : ServerState × List Emit),
      (ks.foldl (dstep sid) acc).1.groups = acc.1.groups ∧
      (ks.foldl (dstep sid) acc).1.connected = acc.1.connected := by
  induction ks with
  | nil => intro acc; exact ⟨rfl, rfl⟩
  | cons k ks ih =>
    intro acc
    simp only [List.foldl_cons]
    obtain ⟨ha, hb⟩ := ih (dstep sid acc k)
    have hstep := dstep_groups sid k acc
    exact ⟨ha.trans hstep.1, hb.trans hstep.2⟩

theorem dfold_nodup (sid : String) (ks : List String) :
    ∀ (acc : ServerState × List Emit), (recKeys acc.1.rooms).Nodup →
      (recKeys ((ks.foldl (dstep sid) acc).1.rooms)).Nodup := by
  induction ks with
  | nil => intro acc h; exact h
  | cons k ks ih =>
    intro acc h
    simp only [List.foldl_cons]
    exact ih (dstep sid acc k) (dstep_nodup sid k acc h)

theorem dfold_self (sid : String) (ks : List String) :
    ∀ (acc : ServerState × List Emit) (r : String), ks.Nodup → r ∈ ks →
      recGet (ks.foldl (dstep sid) acc).1.rooms r = droomAfter sid (recGet acc.1.rooms r) ∧
      recGet (ks.foldl (dstep sid) acc).1.mediaStates r =
        dmediaAfter sid (recGet acc.1.rooms r) (recGet acc.1.mediaStates r) := by
  induction ks with
  | nil => intro acc r _ h; exact absurd h (List.not_mem_nil r)
  | cons k ks ih =>
    intro acc r hnd hr
    simp only [List.foldl_cons]
    rcases List.mem_cons.mp hr with heq | hmem
    · subst heq
      have hk : r ∉ ks := (List.nodup_cons.mp hnd).1
      have hother := dfold_other sid ks (dstep sid acc r) r hk
      have hself := dstep_self sid r acc
      exact ⟨hother.1.trans hself.1, hother.2.trans hself.2⟩
    · have hnd2 : ks.Nodup := (List.nodup_cons.mp hnd).2
      have hk : k ∉ ks := (List.nodup_cons.mp hnd).1
      have hrk : r ≠ k := fun hh => hk (hh ▸ hmem)
      have hstep := dstep_other sid k r hrk acc
      have hrec := ih (dstep sid acc k) r hnd2 hmem
      rw [hstep.1, hstep.2] at hrec
      exact hrec

theorem dfold_out (sid : String) (ks : List String) :
    ∀ (acc : ServerState × List Emit), ks.Nodup →
      (ks.foldl (dstep sid) acc).2 =
        acc.2 ++ (ks.filter (fun k => dhits acc.1 sid k)).map
          (fun k => ((Target.roomExcept k sid, OutEvent.userLeft sid) : Emit)) := by
  induction ks with
  | nil => intro acc _; simp
  | cons k ks ih =>
    intro acc hnd
    have hk : k ∉ ks := (List.nodup_cons.mp hnd).1
    have hnd2 := (List.nodup_cons.mp hnd).2
    simp only [List.foldl_cons, List.filter_cons]
    have hdh : ks.filter (fun k2 => dhits (dstep sid acc k).1 sid k2) =
        ks.filter (fun k2 => dhits acc.1 sid k2) := by
      apply List.filter_congr
      intro k2 hk2
      have hne : k2 ≠ k := fun hh => hk (hh ▸ hk2)
      unfold dhits
      rw [(dstep_other sid k k2 hne acc).1]
    rw [ih (dstep sid acc k) hnd2, hdh, dstep_out sid k acc]
    by_cases hh : dhits acc.1 sid k
    · simp [hh]
    · simp [hh]

/-- Pointwise description of the whole first-variant `disconnect`
handler, assuming a duplicate-free room key list. -/
theorem onDisconnect_char (st : ServerState) (sid : String)
    (hnd : (recKeys st.rooms).Nodup) :
    (∀ r, recGet (onDisconnect st sid).1.rooms r = droomAfter sid (recGet st.rooms r)) ∧
    (∀ r, recGet (onDisconnect st sid).1.mediaStates r =
      dmediaAfter sid (recGet st.rooms r) (recGet st.mediaStates r)) ∧
    (onDisconnect st sid).1.groups = groupLeaveAll st.groups sid ∧
    (onDisconnect st sid).1.connected = st.connected.filter (fun x => x ≠ sid) ∧
    (onDisconnect st sid).2 =
      ((recKeys st.rooms).filter (fun k => dhits st sid k)).map
        (fun k => ((Target.roomExcept k sid, OutEvent.userLeft sid) : Emit)) := by
  unfold onDisconnect
  dsimp only
  refine ⟨?_, ?_, ?_, ?_, ?_⟩
  · intro r
    by_cases hr : r ∈ recKeys st.rooms
    · exact (dfold_self sid (recKeys st.rooms) (st, []) r hnd hr).1
    · have hnone : recGet st.rooms r = none := (recGet_eq_none_iff _ _).mpr hr
      have hh := (dfold_other sid (recKeys st.rooms) (st, []) r hr).1
      rw [hnone] at hh ⊢
      simpa [droomAfter] using hh
  · intro r
    by_cases hr : r ∈ recKeys st.rooms
    · exact (dfold_self sid (recKeys st.rooms) (st, []) r hnd hr).2
    · have hnone : recGet st.rooms r = none := (recGet_eq_none_iff _ _).mpr hr
      have hh := (dfold_other sid (recKeys st.rooms) (st, []) r hr).2
      rw [hnone]
      simpa [dmediaAfter] using hh
  · rw [(dfold_groups sid (recKeys st.rooms) (st, [])).1]
  · rw [(dfold_groups sid (recKeys st.rooms) (st, [])).2]
  · simpa using dfold_out sid (recKeys st.rooms) (st, []) hnd

/-! ## The reachable-state invariant -/

theorem serverInv_same {st st2 : ServerState} (hr : st2.rooms = st.rooms)
    (hg : st2.groups = st.groups) (h : ServerInv st) : ServerInv st2 := by
  obtain ⟨h1, h2, h3, h4⟩ := h
  refine ⟨?_, ?_, ?_, ?_⟩
  · intro r m hm
    rw [hr] at hm
    exact h1 r m hm
  · intro r
    rw [hg, hr]
    exact h2 r
  · intro r m hm
    rw [hr] at hm
    exact h3 r m hm
  · rw [hr]
    exact h4

theorem serverInv_onJoin (st : ServerState) (sid roomId u d : String)
    (p : Option String) (h : ServerInv st) :
    ServerInv (onJoin st sid roomId u d p).1 := by
  obtain ⟨h1, h2, h3, h4⟩ := h
  by_cases hcap : ((recGet st.rooms roomId).getD []).length < 10
  · rw [onJoin_not_full st sid roomId u d p hcap]
    dsimp only
    have hm0nodup : (recKeys ((recGet st.rooms roomId).getD [])).Nodup := by
      cases hrm : recGet st.rooms roomId with
      | none => simp [recKeys]
      | some m0 => exact h3 roomId m0 hrm
    refine ⟨?_, ?_, ?_, ?_⟩
    · intro r m hm
      by_cases hrr : r = roomId
      · subst hrr
        rw [recGet_recSet_self] at hm
        cases hm
        rw [length_recSet]
        by_cases hmem : sid ∈ recKeys ((recGet st.rooms r).getD [])
        · rw [if_pos hmem]
          omega
        · rw [if_neg hmem]
          omega
      · rw [recGet_recSet_ne _ _ _ _ hrr] at hm
        exact h1 r m hm
    · intro r
      by_cases hrr : r = roomId
      · subst hrr
        rw [recGet_groupJoin_self, recGet_recSet_self]
        have hg0 := h2 r
        rw [hg0]
        rw [Option.getD_some, recKeys_recSet]
        by_cases hmem : sid ∈ recKeys ((recGet st.rooms r).getD [])
        · rw [if_pos hmem, if_pos hmem, hg0]
        · rw [if_neg hmem, if_neg hmem, Option.getD_some]
      · rw [recGet_groupJoin_ne _ _ _ _ hrr, recGet_recSet_ne _ _ _ _ hrr]
        exact h2 r
    · intro r m hm
      by_cases hrr : r = roomId
      · subst hrr
        rw [recGet_recSet_self] at hm
        cases hm
        exact nodup_recKeys_recSet _ _ hm0nodup
      · rw [recGet_recSet_ne _ _ _ _ hrr] at hm
        exact h3 r m hm
    · exact nodup_recKeys_recSet _ _ h4
  · have hge : 10 ≤ ((recGet st.rooms roomId).getD []).length := Nat.le_of_not_lt hcap
    cases hrm : recGet st.rooms roomId with
    | none =>
      rw [hrm] at hge
      simp at hge
    | some m0 =>
      rw [hrm, Option.getD_some] at hge
      rw [onJoin_full sid u d p hrm hge]
      exact ⟨h1, h2, h3, h4⟩

theorem serverInv_onLeave (st : ServerState) (sid roomId : String)
    (h : ServerInv st) : ServerInv (onLeave st sid roomId).1 := by
  obtain ⟨h1, h2, h3, h4⟩ := h
  cases hrm : recGet st.rooms roomId with
  | none =>
    rw [onLeave_not_member (by simp [hrm])]
    exact ⟨h1, h2, h3, h4⟩
  | some m =>
    cases hs : recGet m sid with
    | none =>
      rw [onLeave_not_member (by simp [hrm, hs])]
      exact ⟨h1, h2, h3, h4⟩
    | some info =>
      have hsidm : sid ∈ recKeys m := mem_recKeys_of_recGet hs
      by_cases hlen : (recDel m sid).length = 0
      · have hnil : recDel m sid = [] := List.length_eq_zero.mp hlen
        have heq : (onLeave st sid roomId).1 =
            { st with rooms := recDel st.rooms roomId,
                      mediaStates := recDel st.mediaStates roomId,
                      groups := groupLeave st.groups roomId sid } := by
          rw [onLeave_member hrm hs]
          dsimp only
          rw [if_pos hlen, if_pos hlen]
        rw [heq]
        refine ⟨?_, ?_, ?_, ?_⟩
        · intro r m2 hm2
          by_cases hrr : r = roomId
          · subst hrr
            rw [recGet_recDel_self] at hm2
            exact Option.noConfusion hm2
          · rw [recGet_recDel_ne _ _ _ hrr] at hm2
            exact h1 r m2 hm2
        · intro r
          by_cases hrr : r = roomId
          · subst hrr
            rw [recGet_groupLeave_self, recGet_recDel_self]
            have hg0 := h2 r
            rw [hrm, Option.getD_some] at hg0
            cases hgr : recGet st.groups r with
            | none => rfl
            | some g =>
              rw [hgr, Option.getD_some] at hg0
              subst hg0
              have hfil : (recKeys m).filter (fun x => x ≠ sid) = [] := by
                rw [← recKeys_recDel, hnil]
                rfl
              exact hfil
          · rw [recGet_groupLeave_ne _ _ _ _ hrr, recGet_recDel_ne _ _ _ hrr]
            exact h2 r
        · intro r m2 hm2
          by_cases hrr : r = roomId
          · subst hrr
            rw [recGet_recDel_self] at hm2
            exact Option.noConfusion hm2
          · rw [recGet_recDel_ne _ _ _ hrr] at hm2
            exact h3 r m2 hm2
        · exact nodup_recKeys_recDel _ h4
      · have heq : (onLeave st sid roomId).1 =
            { st with rooms := recSet st.rooms roomId (recDel m sid),
                      mediaStates := match recGet st.mediaStates roomId with
                        | some mm => recSet st.mediaStates roomId (recDel mm sid)
                        | none => st.mediaStates,
                      groups := groupLeave st.groups roomId sid } := by
          rw [onLeave_member hrm hs]
          dsimp only
          rw [if_neg hlen, if_neg hlen]
        rw [heq]
        refine ⟨?_, ?_, ?_, ?_⟩
        · intro r m2 hm2
          by_cases hrr : r = roomId
          · subst hrr
            rw [recGet_recSet_self] at hm2
            cases hm2
            exact le_trans (length_recDel_le m sid) (h1 r m hrm)
          · rw [recGet_recSet_ne _ _ _ _ hrr] at hm2
            exact h1 r m2 hm2
        · intro r
          by_cases hrr : r = roomId
          · subst hrr
            rw [recGet_groupLeave_self, recGet_recSet_self]
            have hg0 := h2 r
            rw [hrm, Option.getD_some] at hg0
            cases hgr : recGet st.groups r with
            | none =>
              rw [hgr, Option.getD_none] at hg0
              rw [← hg0] at hsidm
              exact absurd hsidm (List.not_mem_nil sid)
            | some g =>
              rw [hgr, Option.getD_some] at hg0
              subst hg0
              simp only [Option.map_some, Option.getD_some]
              exact (recKeys_recDel m sid).symm
          · rw [recGet_groupLeave_ne _ _ _ _ hrr, recGet_recSet_ne _ _ _ _ hrr]
            exact h2 r
        · intro r m2 hm2
          by_cases hrr : r = roomId
          · subst hrr
            rw [recGet_recSet_self] at hm2
            cases hm2
            exact nodup_recKeys_recDel _ (h3 r m hrm)
          · rw [recGet_recSet_ne _ _ _ _ hrr] at hm2
            exact h3 r m2 hm2
        · exact nodup_recKeys_recSet _ _ h4

theorem onDisconnect_rooms_eq (st : ServerState) (sid : String) :
    (onDisconnect st sid).1.rooms =
      ((recKeys st.rooms).foldl (dstep sid) (st, [])).1.rooms := rfl

theorem droomAfter_none (sid : String) : droomAfter sid none = none := rfl

theorem droomAfter_not_mem {m0 : List (String × UserInfo)} {sid : String}
    (hs : recGet m0 sid = none) : droomAfter sid (some m0) = some m0 := by
  simp [droomAfter, hs]

theorem droomAfter_mem {m0 : List (String × UserInfo)} {sid : String} {info : UserInfo}
    (hs : recGet m0 sid = some info) :
    droomAfter sid (some m0) =
      if (recDel m0 sid).length = 0 then none else some (recDel m0 sid) := by
  simp [droomAfter, hs]

theorem dmediaAfter_none (sid : String) (mo : Option (List (String × MediaState))) :
    dmediaAfter sid none mo = mo := rfl

theorem dmediaAfter_not_mem {m0 : List (String × UserInfo)} {sid : String}
    (mo : Option (List (String × MediaState))) (hs : recGet m0 sid = none) :
    dmediaAfter sid (some m0) mo = mo := by
  simp [dmediaAfter, hs]

theorem dmediaAfter_mem {m0 : List (String × UserInfo)} {sid : String} {info : UserInfo}
    (mo : Option (List (String × MediaState))) (hs : recGet m0 sid = some info) :
    dmediaAfter sid (some m0) mo =
      if (recDel m0 sid).length = 0 then none
      else mo.map (fun mm => recDel mm sid) := by
  simp [dmediaAfter, hs]

theorem serverInv_onDisconnect (st : ServerState) (sid : String)
    (h : ServerInv st) : ServerInv (onDisconnect st sid).1 := by
  obtain ⟨h1, h2, h3, h4⟩ := h
  obtain ⟨hrooms, hmedia, hgroups, hconn, hout⟩ := onDisconnect_char st sid h4
  refine ⟨?_, ?_, ?_, ?_⟩
  · intro r m hm
    rw [hrooms r] at hm
    cases hrm : recGet st.rooms r with
    | none =>
      rw [hrm, droomAfter_none] at hm
      exact Option.noConfusion hm
    | some m0 =>
      rw [hrm] at hm
      cases hs : recGet m0 sid with
      | none =>
        rw [droomAfter_not_mem hs] at hm
        cases hm
        exact h1 r m hrm
      | some info =>
        rw [droomAfter_mem hs] at hm
        by_cases hlen : (recDel m0 sid).length = 0
        · rw [if_pos hlen] at hm
          exact Option.noConfusion hm
        · rw [if_neg hlen] at hm
          cases hm
          exact le_trans (length_recDel_le m0 sid) (h1 r m0 hrm)
  · intro r
    rw [hrooms r, hgroups, recGet_groupLeaveAll]
    have hg0 := h2 r
    cases hrm : recGet st.rooms r with
    | none =>
      rw [hrm, Option.getD_none] at hg0
      rw [droomAfter_none]
      cases hgr : recGet st.groups r with
      | none => rfl
      | some g =>
        rw [hgr, Option.getD_some] at hg0
        subst hg0
        exact filter_ne_of_not_mem (List.not_mem_nil sid)
    | some m0 =>
      rw [hrm, Option.getD_some] at hg0
      cases hs : recGet m0 sid with
      | none =>
        have hnm : sid ∉ recKeys m0 := by
          rw [← recGet_eq_none_iff]
          exact hs
        rw [droomAfter_not_mem hs]
        cases hgr : recGet st.groups r with
        | none =>
          rw [hgr, Option.getD_none] at hg0
          exact hg0
        | some g =>
          rw [hgr, Option.getD_some] at hg0
          subst hg0
          exact filter_ne_of_not_mem hnm
      | some info =>
        have hsidm : sid ∈ recKeys m0 := mem_recKeys_of_recGet hs
        have hgsome : recGet st.groups r = some (recKeys m0) := by
          cases hgr : recGet st.groups r with
          | none =>
            rw [hgr, Option.getD_none] at hg0
            rw [← hg0] at hsidm
            exact absurd hsidm (List.not_mem_nil sid)
          | some g =>
            rw [hgr, Option.getD_some] at hg0
            rw [hg0]
        rw [droomAfter_mem hs, hgsome]
        by_cases hlen : (recDel m0 sid).length = 0
        · rw [if_pos hlen]
          have hnil : recDel m0 sid = [] := List.length_eq_zero.mp hlen
          have hfil : (recKeys m0).filter (fun x => x ≠ sid) = [] := by
            rw [← recKeys_recDel, hnil]
            rfl
          exact hfil
        · rw [if_neg hlen]
          exact (recKeys_recDel m0 sid).symm
  · intro r m hm
    rw [hrooms r] at hm
    cases hrm : recGet st.rooms r with
    | none =>
      rw [hrm, droomAfter_none] at hm
      exact Option.noConfusion hm
    | some m0 =>
      rw [hrm] at hm
      cases hs : recGet m0 sid with
      | none =>
        rw [droomAfter_not_mem hs] at hm
        cases hm
        exact h3 r m hrm
      | some info =>
        rw [droomAfter_mem hs] at hm
        by_cases hlen : (recDel m0 sid).length = 0
        · rw [if_pos hlen] at hm
          exact Option.noConfusion hm
        · rw [if_neg hlen] at hm
          cases hm
          exact nodup_recKeys_recDel _ (h3 r m0 hrm)
  · rw [onDisconnect_rooms_eq]
    exact dfold_nodup sid (recKeys st.rooms) (st, []) h4

theorem onSignal_fst (st : ServerState) (d : SignalData) : (onSignal st d).1 = st := by
  unfold onSignal
  split
  · rfl
  · rfl

/-- Every handler preserves the structural invariant. -/
theorem serverInv_step (st : ServerState) (now : String) (e : InEvent)
    (h : ServerInv st) : ServerInv (step st now e).1 := by
  cases e with
  | connect sid => exact serverInv_same rfl rfl h
  | joinRoom sid roomId u d p => exact serverInv_onJoin st sid roomId u d p h
  | signalEv sid d =>
    show ServerInv (onSignal st d).1
    rw [onSignal_fst]
    exact h
  | mediaStateEv sid roomId a v => exact serverInv_same rfl rfl h
  | screenShareEv sid roomId sharing => exact serverInv_same rfl rfl h
  | screenShareStartEv sid roomId => exact serverInv_same rfl rfl h
  | screenShareStopEv sid roomId => exact serverInv_same rfl rfl h
  | screenSignalEv sid toId fromId payload => exact serverInv_same rfl rfl h
  | leaveRoom sid roomId => exact serverInv_onLeave st sid roomId h
  | chatMessageEv sid roomId userId message => exact serverInv_same rfl rfl h
  | disconnectEv sid => exact serverInv_onDisconnect st sid h

theorem serverInv_initState : ServerInv initState := by
  refine ⟨?_, ?_, ?_, ?_⟩
  · intro r m hm
    exact Option.noConfusion hm
  · intro r
    rfl
  · intro r m hm
    exact Option.noConfusion hm
  · exact List.nodup_nil

/-- Every state a fresh server can reach satisfies the structural
invariant. -/
theorem serverInv_run (evs : List (String × InEvent)) : ServerInv (run evs) := by
  unfold run
  have hgen : ∀ (l : List (String × InEvent)) (st : ServerState), ServerInv st →
      ServerInv (l.foldl (fun st2 p => (step st2 p.1 p.2).1) st) := by
    intro l
    induction l with
    | nil => intro st hst; exact hst
    | cons p rest ih =>
      intro st hst
      exact ih _ (serverInv_step st p.1 p.2 hst)
  exact hgen evs initState serverInv_initState

/-! ## Claims -/

/-- C1: over every event sequence a fresh server can process (in
particular every sequence of `join:room` events), no room's
participant count ever exceeds 10; and a `join:room` aimed at a room
already holding 10 members returns the state untouched (the requester
is added to neither `rooms` nor `mediaStates`, nothing else mutates)
with `room:full` as the single emission, delivered to the requester
alone. -/
theorem join_capacity :
    (∀ (evs : List (String × InEvent)) (r : String),
      ((recGet (run evs).rooms r).getD []).length ≤ 10) ∧
    (∀ (st : ServerState) (sid r u d : String) (p : Option String)
      (m : List (String × UserInfo)),
      recGet st.rooms r = some m → m.length = 10 →
      onJoin st sid r u d p = (st, [(Target.direct sid, OutEvent.roomFull)]) ∧
      deliver st (Target.direct sid) = [sid]) := by
  constructor
  · intro evs r
    obtain ⟨h1, h2, h3, h4⟩ := serverInv_run evs
    cases hr : recGet (run evs).rooms r with
    | none => simp
    | some m =>
      rw [Option.getD_some]
      exact h1 r m hr
  · intro st sid r u d p m hm hm10
    exact ⟨onJoin_full sid u d p hm hm10.ge, rfl⟩

/-- C1 witness: ten joins fill room `r`; the eleventh requester gets
`room:full` alone and the state is untouched. -/
theorem join_capacity_witness :
    recGet (run tenJoinEvs).rooms "r" ≠ none ∧
    ((recGet (run tenJoinEvs).rooms "r").getD []).length = 10 ∧
    (onJoin (run tenJoinEvs) "s11" "r" "u" "n" none =
      (run tenJoinEvs, [(Target.direct "s11", OutEvent.roomFull)]) ∧
     deliver (run tenJoinEvs) (Target.direct "s11") = ["s11"]) := by
  refine ⟨by decide, by decide, ?_⟩
  exact join_capacity.2 (run tenJoinEvs) "s11" "r" "u" "n" none
    ((recGet (run tenJoinEvs).rooms "r").getD []) (by decide) (by decide)

/-- C2: the claim that the Participant and MediaState key sets stay
aligned and that no MediaState room entry survives its room's
deletion holds for `join:room`, `leave:room` and the first variant's
`disconnect`, but the second variant's `disconnect` handler (part_000
lines 328-344) violates its second half: when the last member
disconnects it deletes `rooms[roomId]` (line 338) without deleting
`mediaStates[roomId]`, unlike the `leave:room` handler of the same
variant (lines 304-307) and the first variant's `disconnect` (lines
186-189).  Evaluation at the failing input: after `c1` joins `r1` and
then disconnects through the second variant's handler, the room is
gone but an emptied MediaState entry for `r1` survives; the first
variant's handler deletes both. -/
theorem disconnect_v2_media_survives :
    recGet (run oneJoinEvs).rooms "r1" =
      some [("c1", ⟨"c1", "u1", "Ana", none⟩)] ∧
    recGet (run oneJoinEvs).mediaStates "r1" =
      some [("c1", ⟨true, true, some false⟩)] ∧
    recGet ((onDisconnectV2 (run oneJoinEvs) "c1").1).rooms "r1" = none ∧
    recGet ((onDisconnectV2 (run oneJoinEvs) "c1").1).mediaStates "r1" = some [] ∧
    recGet ((onDisconnect (run oneJoinEvs) "c1").1).rooms "r1" = none ∧
    recGet ((onDisconnect (run oneJoinEvs) "c1").1).mediaStates "r1" = none := by
  refine ⟨?_, ?_, ?_, ?_, ?_, ?_⟩ <;> decide

/-- A `join:room` into a room id absent from the registry answers the
requester with `room:joined` carrying an empty `existingUsers` list. -/
theorem onJoin_fresh_roomJoined (st : ServerState) (s2 r u d : String)
    (p : Option String) (h : recGet st.rooms r = none) :
    (Target.direct s2, OutEvent.roomJoined r []) ∈ (onJoin st s2 r u d p).2 := by
  have hlen : ((recGet st.rooms r).getD []).length < 10 := by
    rw [h]
    simp
  rw [onJoin_not_full st s2 r u d p hlen]
  dsimp only
  rw [h]
  simp [recSet]

/-- C3: in any reachable state, removing the last member of a room —
by `leave:room` or by `disconnect` — deletes the room (and its
MediaState entry) in the same step, and a subsequent fresh
`join:room` to the same room id is answered with `room:joined` whose
`existingUsers` list is empty. -/
theorem empty_room_deleted :
    ∀ (evs : List (String × InEvent)) (sid r : String)
      (m : List (String × UserInfo)) (info : UserInfo),
    recGet (run evs).rooms r = some m → recGet m sid = some info →
    recDel m sid = [] →
    (recGet ((onLeave (run evs) sid r).1).rooms r = none ∧
     recGet ((onLeave (run evs) sid r).1).mediaStates r = none ∧
     (∀ (s2 u d : String) (p : Option String),
       (Target.direct s2, OutEvent.roomJoined r []) ∈
         (onJoin ((onLeave (run evs) sid r).1) s2 r u d p).2)) ∧
    (recGet ((onDisconnect (run evs) sid).1).rooms r = none ∧
     recGet ((onDisconnect (run evs) sid).1).mediaStates r = none ∧
     (∀ (s2 u d : String) (p : Option String),
       (Target.direct s2, OutEvent.roomJoined r []) ∈
         (onJoin ((onDisconnect (run evs) sid).1) s2 r u d p).2)) := by
  intro evs sid r m info hm hs hdel
  have hlen : (recDel m sid).length = 0 := by
    rw [hdel]
    rfl
  obtain ⟨h1, h2, h3, h4⟩ := serverInv_run evs
  have hleaveSt : (onLeave (run evs) sid r).1 =
      { run evs with rooms := recDel (run evs).rooms r,
                     mediaStates := recDel (run evs).mediaStates r,
                     groups := groupLeave (run evs).groups r sid } := by
    rw [onLeave_member hm hs]
    dsimp only
    rw [if_pos hlen, if_pos hlen]
  have hLrooms : recGet ((onLeave (run evs) sid r).1).rooms r = none := by
    rw [hleaveSt]
    exact recGet_recDel_self _ _
  constructor
  · refine ⟨hLrooms, ?_, ?_⟩
    · rw [hleaveSt]
      exact recGet_recDel_self _ _
    · intro s2 u d p
      exact onJoin_fresh_roomJoined _ s2 r u d p hLrooms
  · obtain ⟨hrooms, hmedia, hgroups, hconn, hout⟩ := onDisconnect_char (run evs) sid h4
    have hDrooms : recGet ((onDisconnect (run evs) sid).1).rooms r = none := by
      rw [hrooms r, hm, droomAfter_mem hs, if_pos hlen]
    refine ⟨hDrooms, ?_, ?_⟩
    · rw [hmedia r, hm, dmediaAfter_mem _ hs, if_pos hlen]
    · intro s2 u d p
      exact onJoin_fresh_roomJoined _ s2 r u d p hDrooms

/-- C3 witness: `c1` is the sole member of `r1`; after its leave (and,
from the same state, after its disconnect) room `r1` is gone from both
registries and a fresh join by `c2` sees no existing users. -/
theorem empty_room_deleted_witness :
    recGet ((onLeave (run oneJoinEvs) "c1" "r1").1).rooms "r1" = none ∧
    recGet ((onDisconnect (run oneJoinEvs) "c1").1).mediaStates "r1" = none ∧
    (Target.direct "c2", OutEvent.roomJoined "r1" []) ∈
      (onJoin ((onLeave (run oneJoinEvs) "c1" "r1").1) "c2" "r1" "u2" "Bea" none).2 := by
  have h := empty_room_deleted oneJoinEvs "c1" "r1"
    [("c1", ⟨"c1", "u1", "Ana", none⟩)] ⟨"c1", "u1", "Ana", none⟩
    (by decide) (by decide) (by decide)
  exact ⟨h.1.1, h.2.2.1, h.1.2.2 "c2" "u2" "Bea" none⟩

theorem filter_ne_idem (l : List String) (k : String) :
    (l.filter (fun x => x ≠ k)).filter (fun x => x ≠ k) = l.filter (fun x => x ≠ k) := by
  rw [List.filter_filter]
  simp

/-- C4: in any reachable state, a `disconnect` performs, for every
room the connection is a member of, the same steps as an explicit
leave: the member is deleted from both the Participant and MediaState
maps, `user:left` carrying the connection id is emitted to the room
and delivered to exactly the remaining members, and the room is
deleted when it became empty. -/
theorem disconnect_performs_leave :
    ∀ (evs : List (String × InEvent)) (sid r : String)
      (m : List (String × UserInfo)),
    recGet (run evs).rooms r = some m → recHas m sid = true →
    (recGet ((onDisconnect (run evs) sid).1).rooms r =
      (if (recDel m sid).length = 0 then none else some (recDel m sid))) ∧
    (recGet ((onDisconnect (run evs) sid).1).mediaStates r =
      (if (recDel m sid).length = 0 then none
       else (recGet (run evs).mediaStates r).map (fun mm => recDel mm sid))) ∧
    (Target.roomExcept r sid, OutEvent.userLeft sid) ∈ (onDisconnect (run evs) sid).2 ∧
    deliver ((onDisconnect (run evs) sid).1) (Target.roomExcept r sid) =
      recKeys (recDel m sid) := by
  intro evs sid r m hm hhas
  obtain ⟨info, hs⟩ := Option.isSome_iff_exists.mp hhas
  obtain ⟨h1, h2, h3, h4⟩ := serverInv_run evs
  obtain ⟨hrooms, hmedia, hgroups, hconn, hout⟩ := onDisconnect_char (run evs) sid h4
  have hsidm : sid ∈ recKeys m := mem_recKeys_of_recGet hs
  refine ⟨?_, ?_, ?_, ?_⟩
  · rw [hrooms r, hm, droomAfter_mem hs]
  · rw [hmedia r, hm, dmediaAfter_mem _ hs]
  · rw [hout]
    have hmemf : r ∈ (recKeys (run evs).rooms).filter (fun k => dhits (run evs) sid k) := by
      apply List.mem_filter.mpr
      refine ⟨mem_recKeys_of_recGet hm, ?_⟩
      simp [dhits, hm, hs]
    exact List.mem_map_of_mem _ hmemf
  · show ((recGet ((onDisconnect (run evs) sid).1).groups r).getD []).filter
        (fun x => x ≠ sid) = recKeys (recDel m sid)
    rw [hgroups, recGet_groupLeaveAll]
    have hg0 := h2 r
    rw [hm, Option.getD_some] at hg0
    have hgsome : recGet (run evs).groups r = some (recKeys m) := by
      cases hgr : recGet (run evs).groups r with
      | none =>
        rw [hgr, Option.getD_none] at hg0
        rw [← hg0] at hsidm
        exact absurd hsidm (List.not_mem_nil sid)
      | some g =>
        rw [hgr, Option.getD_some] at hg0
        rw [hg0]
    rw [hgsome]
    show ((recKeys m).filter (fun x => x ≠ sid)).filter (fun x => x ≠ sid) =
      recKeys (recDel m sid)
    rw [filter_ne_idem]
    exact (recKeys_recDel m sid).symm

/-- C4 witness: `c1` and `c2` share room `r1`; `c1`'s disconnect
removes it from both maps (the room survives with `c2`), emits
`user:left` for `r1`, and delivers it to `c2` alone. -/
theorem disconnect_performs_leave_witness :
    recGet ((onDisconnect (run twoJoinEvs) "c1").1).rooms "r1" =
      some [("c2", ⟨"c2", "u2", "Bea", none⟩)] ∧
    recGet ((onDisconnect (run twoJoinEvs) "c1").1).mediaStates "r1" =
      some [("c2", ⟨true, true, some false⟩)] ∧
    (Target.roomExcept "r1" "c1", OutEvent.userLeft "c1") ∈
      (onDisconnect (run twoJoinEvs) "c1").2 ∧
    deliver ((onDisconnect (run twoJoinEvs) "c1").1)
      (Target.roomExcept "r1" "c1") = ["c2"] := by
  have h := disconnect_performs_leave twoJoinEvs "c1" "r1"
    [("c1", ⟨"c1", "u1", "Ana", none⟩), ("c2", ⟨"c2", "u2", "Bea", none⟩)]
    (by decide) (by decide)
  refine ⟨h.1.trans (by decide), h.2.1.trans (by decide), h.2.2.1,
    h.2.2.2.trans (by decide)⟩

/-- After a `leave:room`, whatever branch it took, the leaver is no
longer a member of that room. -/
theorem onLeave_post (st : ServerState) (sid r : String) :
    (recGet ((onLeave st sid r).1).rooms r).bind (fun m2 => recGet m2 sid) = none := by
  cases hrm : recGet st.rooms r with
  | none =>
    rw [onLeave_not_member (by simp [hrm])]
    simp [hrm]
  | some m =>
    cases hs : recGet m sid with
    | none =>
      rw [onLeave_not_member (by simp [hrm, hs])]
      simp [hrm, hs]
    | some info =>
      by_cases hlen : (recDel m sid).length = 0
      · rw [onLeave_member hrm hs]
        dsimp only
        rw [if_pos hlen, recGet_recDel_self]
        rfl
      · rw [onLeave_member hrm hs]
        dsimp only
        rw [if_neg hlen, recGet_recSet_self]
        show recGet (recDel m sid) sid = none
        exact recGet_recDel_self m sid

/-- C5: leave is idempotent.  A second `leave:room` after a first one
for the same connection and room is an exact no-op (state unchanged,
no emissions); a `leave:room` when the room or the membership does not
exist is a no-op, not an error; and a `disconnect` following a
`leave:room` touches neither that room's Participant nor MediaState
entry again and emits no second `user:left` for it, so the
member-removal side effects happen exactly once. -/
theorem leave_idempotent :
    (∀ (st : ServerState) (sid r : String),
      onLeave ((onLeave st sid r).1) sid r = ((onLeave st sid r).1, [])) ∧
    (∀ (st : ServerState) (sid r : String),
      (recGet st.rooms r).bind (fun m => recGet m sid) = none →
      onLeave st sid r = (st, [])) ∧
    (∀ (evs : List (String × InEvent)) (sid r : String),
      recGet ((onDisconnect ((onLeave (run evs) sid r).1) sid).1).rooms r =
        recGet ((onLeave (run evs) sid r).1).rooms r ∧
      recGet ((onDisconnect ((onLeave (run evs) sid r).1) sid).1).mediaStates r =
        recGet ((onLeave (run evs) sid r).1).mediaStates r ∧
      (Target.roomExcept r sid, OutEvent.userLeft sid) ∉
        (onDisconnect ((onLeave (run evs) sid r).1) sid).2) := by
  refine ⟨?_, ?_, ?_⟩
  · intro st sid r
    exact onLeave_not_member (onLeave_post st sid r)
  · intro st sid r h
    exact onLeave_not_member h
  · intro evs sid r
    set st1 := (onLeave (run evs) sid r).1 with hst1
    have hinv : ServerInv st1 := serverInv_onLeave (run evs) sid r (serverInv_run evs)
    obtain ⟨h1, h2, h3, h4⟩ := hinv
    obtain ⟨hrooms, hmedia, hgroups, hconn, hout⟩ := onDisconnect_char st1 sid h4
    have hpost := onLeave_post (run evs) sid r
    rw [← hst1] at hpost
    have hnomem : ∀ m1, recGet st1.rooms r = some m1 → recGet m1 sid = none := by
      intro m1 hr1
      rw [hr1] at hpost
      simpa using hpost
    have hdh : dhits st1 sid r = false := by
      unfold dhits
      cases hr1 : recGet st1.rooms r with
      | none => rfl
      | some m1 =>
        simp [hnomem m1 hr1]
    refine ⟨?_, ?_, ?_⟩
    · rw [hrooms r]
      cases hr1 : recGet st1.rooms r with
      | none => rw [droomAfter_none]
      | some m1 => rw [droomAfter_not_mem (hnomem m1 hr1)]
    · rw [hmedia r]
      cases hr1 : recGet st1.rooms r with
      | none => rw [dmediaAfter_none]
      | some m1 => rw [dmediaAfter_not_mem _ (hnomem m1 hr1)]
    · rw [hout]
      intro hmem
      obtain ⟨k, hk, heq⟩ := List.mem_map.mp hmem
      injection heq with ha hb
      injection ha with hk1 hk2
      subst hk1
      have hd := (List.mem_filter.mp hk).2
      rw [hdh] at hd
      exact Bool.noConfusion hd

/-- C5 witness: from the one-member room scenario, a second leave for
`c1`/`r1` is an exact no-op, a leave against an empty server is a
no-op, and a disconnect after the leave emits no second `user:left`
for `r1`. -/
theorem leave_idempotent_witness :
    onLeave ((onLeave (run oneJoinEvs) "c1" "r1").1) "c1" "r1" =
      ((onLeave (run oneJoinEvs) "c1" "r1").1, []) ∧
    onLeave initState "c9" "r9" = (initState, []) ∧
    (Target.roomExcept "r1" "c1", OutEvent.userLeft "c1") ∉
      (onDisconnect ((onLeave (run oneJoinEvs) "c1" "r1").1) "c1").2 := by
  refine ⟨leave_idempotent.1 (run oneJoinEvs) "c1" "r1",
    leave_idempotent.2.1 initState "c9" "r9" (by decide),
    (leave_idempotent.2.2 oneJoinEvs "c1" "r1").2.2⟩

/-- C6: a `media:state` update is a total partial-merge.  The sender's
entry after the event is exactly the merge of the current entry (the
stored one, or the seeded default — audio on, video on, screen off —
when none is stored) with the fields present in the event; an absent
field keeps the prior value; every other media entry, every other
room, and all non-media state are untouched; a stored screen-sharing
flag is carried over unchanged, and a missing prior entry means the
merge starts from the defaults. -/
theorem media_state_partial_merge :
    ∀ (st : ServerState) (sid r : String) (a v : Option Bool),
    recGet ((recGet ((onMediaState st sid r a v).1).mediaStates r).getD []) sid =
      some (mergeMedia (curMedia st sid r) a v) ∧
    (∀ s2, s2 ≠ sid →
      recGet ((recGet ((onMediaState st sid r a v).1).mediaStates r).getD []) s2 =
        recGet ((recGet st.mediaStates r).getD []) s2) ∧
    (∀ r2, r2 ≠ r →
      recGet ((onMediaState st sid r a v).1).mediaStates r2 =
        recGet st.mediaStates r2) ∧
    ((onMediaState st sid r a v).1).rooms = st.rooms ∧
    ((onMediaState st sid r a v).1).groups = st.groups ∧
    ((onMediaState st sid r a v).1).connected = st.connected ∧
    (∀ b : Bool, (curMedia st sid r).isScreenSharing = some b →
      (mergeMedia (curMedia st sid r) a v).isScreenSharing = some b) ∧
    (recGet ((recGet st.mediaStates r).getD []) sid = none →
      curMedia st sid r = defMedia) := by
  intro st sid r a v
  have hchar := onMediaState_char st sid r a v
  refine ⟨?_, ?_, ?_, rfl, rfl, rfl, ?_, ?_⟩
  · rw [hchar]
    dsimp only
    rw [recGet_recSet_self, Option.getD_some, recGet_recSet_self]
  · intro s2 hs2
    rw [hchar]
    dsimp only
    rw [recGet_recSet_self, Option.getD_some, recGet_recSet_ne _ _ _ _ hs2]
  · intro r2 hr2
    rw [hchar]
    dsimp only
    rw [recGet_recSet_ne _ _ _ _ hr2]
  · intro b hb
    unfold mergeMedia
    rw [hb]
    rfl
  · intro hnone
    unfold curMedia
    rw [hnone]
    rfl

/-- C6 witness: `c1` has a stored media state in `r1` with video off
and screen-sharing on; sending only `audioEnabled = false` turns audio
off, keeps video off, and leaves the screen flag on. -/
theorem media_state_partial_merge_witness :
    recGet ((recGet ((onMediaState mediaWitSt "c1" "r1" (some false) none).1).mediaStates
        "r1").getD []) "c1" = some ⟨false, false, some true⟩ := by
  have h := (media_state_partial_merge mediaWitSt "c1" "r1" (some false) none).1
  rw [h]
  decide

/-- C7: signal relay is strictly unicast and server-enriched.  For
members `A`, `B`, `C` of a room, a `signal` from `A` with destination
`B` changes no state, produces exactly one emission — a unicast to
`B`'s connection, delivered to `B` alone and never to `C` — and the
forwarded envelope carries `A`'s profile fields (`displayName`,
`userId`, `photoURL`) read from the Room Store entry `rooms[roomId]
[from]`, not from the client payload. -/
theorem signal_strict_unicast :
    ∀ (st : ServerState) (r A B C p : String)
      (m : List (String × UserInfo)) (infoA : UserInfo),
    recGet st.rooms r = some m → recGet m A = some infoA →
    recHas m B = true → recHas m C = true →
    p ≠ "" → B ≠ "" → C ≠ B → B ∈ st.connected →
    onSignal st ⟨B, A, some p, r⟩ =
      (st, [(Target.unicast B, OutEvent.signalFwd A (some p)
        (some infoA.displayName) (some infoA.userId) infoA.photoURL)]) ∧
    deliver st (Target.unicast B) = [B] ∧
    C ∉ deliver st (Target.unicast B) := by
  intro st r A B C p m infoA hm hA hB hC hp hBne hCB hBlive
  have hcond : ¬((some p : Option String) = none ∨
      (some p : Option String) = some "" ∨ B = "") := by
    rintro (h | h | h)
    · exact Option.noConfusion h
    · injection h with h2
      exact hp h2
    · exact hBne h
  refine ⟨?_, ?_, ?_⟩
  · unfold onSignal
    dsimp only
    rw [if_neg hcond, hm, Option.getD_some, hA]
    rfl
  · show (if B ∈ st.connected then [B] else []) = [B]
    rw [if_pos hBlive]
  · show C ∉ (if B ∈ st.connected then [B] else [])
    rw [if_pos hBlive]
    simp [hCB]

/-- C7 witness: in the three-member room `r1`, `c1`'s signal to `c2`
is one unicast emission carrying `c1`'s stored profile, delivered to
`c2` and not to `c3`. -/
theorem signal_strict_unicast_witness :
    onSignal (run threeJoinEvs) ⟨"c2", "c1", some "sdp-offer", "r1"⟩ =
      (run threeJoinEvs, [(Target.unicast "c2", OutEvent.signalFwd "c1"
        (some "sdp-offer") (some "Ana") (some "u1") none)]) ∧
    deliver (run threeJoinEvs) (Target.unicast "c2") = ["c2"] ∧
    "c3" ∉ deliver (run threeJoinEvs) (Target.unicast "c2") := by
  have h := signal_strict_unicast (run threeJoinEvs) "r1" "c1" "c2" "c3" "sdp-offer"
    [("c1", ⟨"c1", "u1", "Ana", none⟩), ("c2", ⟨"c2", "u2", "Bea", none⟩),
     ("c3", ⟨"c3", "u3", "Caro", none⟩)] ⟨"c1", "u1", "Ana", none⟩
    (by decide) (by decide) (by decide) (by decide)
    (by decide) (by decide) (by decide) (by decide)
  exact ⟨h.1, h.2.1, h.2.2⟩

/-- C8: a `signal` whose payload or destination is missing or empty is
silently dropped — state unchanged, nothing emitted, no error to the
sender; and a well-formed `signal` whose destination is not a live
connection changes no state, is delivered to nobody, and produces no
emission aimed anywhere but the (dead) destination, so no error
reaches the sender either. -/
theorem signal_dropped :
    (∀ (st : ServerState) (d : SignalData),
      (d.payload = none ∨ d.payload = some "" ∨ d.toId = "") →
      onSignal st d = (st, [])) ∧
    (∀ (st : ServerState) (d : SignalData) (p : String),
      d.payload = some p → p ≠ "" → d.toId ≠ "" → d.toId ∉ st.connected →
      (onSignal st d).1 = st ∧
      deliver st (Target.unicast d.toId) = [] ∧
      (∀ (t : Target) (e : OutEvent), (t, e) ∈ (onSignal st d).2 →
        t = Target.unicast d.toId)) := by
  constructor
  · intro st d h
    unfold onSignal
    rw [if_pos h]
  · intro st d p hp hpne htne hnlive
    have hcond : ¬(d.payload = none ∨ d.payload = some "" ∨ d.toId = "") := by
      rintro (h | h | h)
      · rw [hp] at h
        exact Option.noConfusion h
      · rw [hp] at h
        injection h with h2
        exact hpne h2
      · exact htne h
    refine ⟨?_, ?_, ?_⟩
    · unfold onSignal
      rw [if_neg hcond]
    · show (if d.toId ∈ st.connected then [d.toId] else []) = []
      rw [if_neg hnlive]
    · intro t e hmem
      unfold onSignal at hmem
      rw [if_neg hcond] at hmem
      simp only [List.mem_singleton] at hmem
      injection hmem with h1 h2

/-- C8 witness: an empty payload is dropped outright, and a signal to
the dead connection `zz` from the three-member room reaches nobody
while the only emission targets `zz`. -/
theorem signal_dropped_witness :
    onSignal (run threeJoinEvs) ⟨"c2", "c1", some "", "r1"⟩ =
      (run threeJoinEvs, []) ∧
    onSignal (run threeJoinEvs) ⟨"", "c1", some "sdp", "r1"⟩ =
      (run threeJoinEvs, []) ∧
    (onSignal (run threeJoinEvs) ⟨"zz", "c1", some "sdp", "r1"⟩).1 =
      run threeJoinEvs ∧
    deliver (run threeJoinEvs) (Target.unicast "zz") = [] := by
  refine ⟨signal_dropped.1 (run threeJoinEvs) ⟨"c2", "c1", some "", "r1"⟩ (by decide),
    signal_dropped.1 (run threeJoinEvs) ⟨"", "c1", some "sdp", "r1"⟩ (by decide),
    ?_, ?_⟩
  · exact (signal_dropped.2 (run threeJoinEvs) ⟨"zz", "c1", some "sdp", "r1"⟩ "sdp"
      (by decide) (by decide) (by decide) (by decide)).1
  · exact (signal_dropped.2 (run threeJoinEvs) ⟨"zz", "c1", some "sdp", "r1"⟩ "sdp"
      (by decide) (by decide) (by decide) (by decide)).2.1

/-- C9: a `chat:message` from a member of a room leaves the state
unchanged and produces exactly one emission: a whole-room broadcast
(sender included) of `chat:message` whose text is the sent message
with surrounding whitespace trimmed and whose timestamp is the server
clock reading `now` at receipt — the inbound payload carries no
timestamp field at all.  The broadcast is delivered to exactly the
room's member list, each member (the sender included) appearing
exactly once among the recipients. -/
theorem chat_fanout :
    ∀ (evs : List (String × InEvent)) (sid r uid msg now : String)
      (m : List (String × UserInfo)),
    recGet (run evs).rooms r = some m → recHas m sid = true →
    onChat (run evs) sid r uid msg now =
      (run evs, [(Target.room r, OutEvent.chatMessage uid msg.trim now)]) ∧
    deliver (run evs) (Target.room r) = recKeys m ∧
    (∀ x, recHas m x = true → (deliver (run evs) (Target.room r)).count x = 1) := by
  intro evs sid r uid msg now m hm hhas
  obtain ⟨h1, h2, h3, h4⟩ := serverInv_run evs
  have hdel : deliver (run evs) (Target.room r) = recKeys m := by
    show (recGet (run evs).groups r).getD [] = recKeys m
    have hg := h2 r
    rw [hm, Option.getD_some] at hg
    exact hg
  refine ⟨rfl, hdel, ?_⟩
  intro x hx
  rw [hdel]
  have hnd := h3 r m hm
  obtain ⟨i, hi⟩ := Option.isSome_iff_exists.mp hx
  exact List.count_eq_one_of_mem hnd (mem_recKeys_of_recGet hi)

/-- C9 witness: `c1` messages room `r1` (members `c1`, `c2`); the
broadcast carries the trimmed text and the server timestamp, reaches
exactly `c1` and `c2`, and the sender `c1` receives it exactly once. -/
theorem chat_fanout_witness :
    onChat (run twoJoinEvs) "c1" "r1" "u1" "  hola  " "2026-10-11T00:00:00Z" =
      (run twoJoinEvs, [(Target.room "r1",
        OutEvent.chatMessage "u1" ("  hola  ".trim) "2026-10-11T00:00:00Z")]) ∧
    deliver (run twoJoinEvs) (Target.room "r1") = ["c1", "c2"] ∧
    (deliver (run twoJoinEvs) (Target.room "r1")).count "c1" = 1 := by
  have h := chat_fanout twoJoinEvs "c1" "r1" "u1" "  hola  " "2026-10-11T00:00:00Z"
    [("c1", ⟨"c1", "u1", "Ana", none⟩), ("c2", ⟨"c2", "u2", "Bea", none⟩)]
    (by decide) (by decide)
  exact ⟨h.1, h.2.1.trans (by decide), h.2.2 "c1" (by decide)⟩

/-- C10: `media:state` performs no membership or room-existence check:
for any sender and room id it leaves the room registry untouched,
always writes a (seeded, merged) MediaState entry keyed by the
sender's connection id — creating the room's media map when absent —
and emits the `media:state` broadcast; consequently a room's
MediaState key set can contain connection ids absent from its
Participant map, as the concrete run from a fresh server shows. -/
theorem media_state_no_membership_check :
    (∀ (st : ServerState) (sid r : String) (a v : Option Bool),
      ((onMediaState st sid r a v).1).rooms = st.rooms ∧
      (recGet ((recGet ((onMediaState st sid r a v).1).mediaStates r).getD [])
        sid).isSome = true ∧
      (onMediaState st sid r a v).2 =
        [(Target.roomExcept r sid, OutEvent.mediaStateBcast sid
          (mergeMedia (curMedia st sid r) a v).audioEnabled
          (mergeMedia (curMedia st sid r) a v).videoEnabled)]) ∧
    (recGet ((onMediaState initState "c1" "r1" (some false) none).1).rooms "r1" =
      none ∧
     recGet ((recGet ((onMediaState initState "c1" "r1" (some false) none).1).mediaStates
        "r1").getD []) "c1" = some ⟨false, true, some false⟩) := by
  constructor
  · intro st sid r a v
    have hchar := onMediaState_char st sid r a v
    refine ⟨rfl, ?_, ?_⟩
    · rw [hchar]
      dsimp only
      rw [recGet_recSet_self, Option.getD_some, recGet_recSet_self]
      rfl
    · rw [hchar]
  · constructor
    · decide
    · decide
